import Mathlib

/-!
# Deterministic lockstep relay protocol: verified embedding

A shallow embedding of the lockstep synchronization protocol of the
`seans-arcade` repository:

* `crates/relay/src/lib.rs` — protocol message types (`ClientMessage`,
  `RelayMessage`) and the postcard-based `serialize` / `deserialize` helpers;
* `crates/relay/src/main.rs` — the relay server state (`RelayState`) and the
  receive/dispatch loop, embedded as the pure step function `relayStep` over
  decoded datagrams plus the fold `relayRunFrom` over datagram traces;
* `crates/net_pong/src/main.rs` — the client connection state machine and
  tick gate, embedded as `clientReceive` / `fixedUpdate`.

Machine integers are modelled as `Nat` with explicit `% 2 ^ w` where the Rust
code could wrap; byte buffers are `List Nat` whose elements are below 256 for
every buffer the real program produces.
-/

set_option maxHeartbeats 1000000

/-- A UDP peer address (`std::net::SocketAddr`), abstract: only equality of
addresses is ever used by the relay. -/
abbrev Addr := Nat

/-- A byte of a wire buffer (`u8`), as a `Nat` (< 256 for real buffers). -/
abbrev Byte := Nat

/-- `relay::ClientMessage` from `crates/relay/src/lib.rs`. -/
inductive ClientMessage where
  | hello
  | input (tick : Nat) (payload : List Byte)
deriving DecidableEq, Repr

/-- `relay::RelayMessage` from `crates/relay/src/lib.rs`. -/
inductive RelayMessage where
  | welcome (player_slot : Nat)
  | gameStart
  | tickInputs (tick : Nat) (inputs : List (List Byte))
deriving DecidableEq, Repr

/-! ## Codec: the postcard wire format for the two message enums

postcard encodes `u32` (and `usize` sequence lengths, 64-bit on the target)
as LEB128 varints, `u8` as a single raw byte, `Vec<u8>` as varint length
followed by the raw bytes, and an enum as the varint `u32` variant index
followed by the variant's fields in declaration order.  `from_bytes` parses a
prefix of the buffer and ignores trailing bytes. -/

/-- `postcard::varint::varint_max::<T>()`: maximal number of bytes of a
varint holding `bits` bits (5 for `u32`, 10 for `u64`). -/
def varintMax (bits : Nat) : Nat := (bits + 6) / 7

/-- `postcard::varint::max_of_last_byte::<T>()`: largest admissible final
byte of a maximal-length varint (15 for `u32`, 1 for `u64`). -/
def maxOfLastByte (bits : Nat) : Nat := 2 ^ (bits % 7) - 1

/-- LEB128 varint encoding, as produced by postcard's
`try_push_varint_u32` / `try_push_varint_usize`: 7 bits per byte, least
significant group first, high bit set on every byte but the last. -/
def encodeVarint (v : Nat) : List Byte :=
  if v < 128 then [v] else (v % 128 + 128) :: encodeVarint (v / 128)
termination_by v
decreasing_by exact Nat.div_lt_self (by omega) (by omega)

/-- The loop of postcard's `try_take_varint_u32` / `try_take_varint_u64`:
`fuel` is the remaining iteration budget (initially `varintMax bits`), `i`
the byte index, `out` the accumulator; `out |= (b & 0x7f) << (7*i)`
truncates at `bits` bits exactly as the Rust shift-and-or on a `bits`-wide
integer does. -/
def parseVarintGo (bits : Nat) : Nat → Nat → Nat → List Byte → Option (Nat × List Byte)
  | 0, _, _, _ => none
  | _ + 1, _, _, [] => none
  | fuel + 1, i, out, b :: rest =>
    let out1 := (out + (b % 128) * 2 ^ (7 * i) % 2 ^ bits)
    if b < 128 then
      if i == varintMax bits - 1 && maxOfLastByte bits < b then none
      else some (out1, rest)
    else parseVarintGo bits fuel (i + 1) out1 rest

/-- postcard's `try_take_varint_*` entry point for a `bits`-bit integer. -/
def parseVarint (bits : Nat) (bs : List Byte) : Option (Nat × List Byte) :=
  parseVarintGo bits (varintMax bits) 0 0 bs

/-- postcard encoding of a `Vec<u8>`: varint `usize` length, then raw bytes. -/
def encodeByteSeq (xs : List Byte) : List Byte :=
  encodeVarint xs.length ++ xs

/-- postcard decoding of a `Vec<u8>`: varint `usize` (64-bit) length, then
that many bytes; `DeserializeUnexpectedEnd` (here `none`) if short. -/
def parseByteSeq (bs : List Byte) : Option (List Byte × List Byte) :=
  match parseVarint 64 bs with
  | none => none
  | some (n, rest) =>
    if n ≤ rest.length then some (rest.take n, rest.drop n) else none

/-- Decoding `n` consecutive `Vec<u8>` sequence elements. -/
def parseVecs : Nat → List Byte → Option (List (List Byte) × List Byte)
  | 0, bs => some ([], bs)
  | n + 1, bs =>
    match parseByteSeq bs with
    | none => none
    | some (v, rest) =>
      match parseVecs n rest with
      | none => none
      | some (vs, rest2) => some (v :: vs, rest2)

/-- `relay::serialize::<ClientMessage>`: postcard encoding of a
`ClientMessage` (variant index, then fields). -/
def serializeClientMessage : ClientMessage → List Byte
  | .hello => encodeVarint 0
  | .input tick payload => encodeVarint 1 ++ encodeVarint tick ++ encodeByteSeq payload

/-- `relay::serialize::<RelayMessage>`: postcard encoding of a
`RelayMessage`. -/
def serializeRelayMessage : RelayMessage → List Byte
  | .welcome player_slot => encodeVarint 0 ++ [player_slot]
  | .gameStart => encodeVarint 1
  | .tickInputs tick inputs =>
    encodeVarint 2 ++ encodeVarint tick ++ encodeVarint inputs.length ++
      (inputs.map encodeByteSeq).flatten

/-- postcard parser for `ClientMessage`: variant index (varint `u32`), then
the variant's fields; an unknown index is a decode error. -/
def parseClientMessage (bs : List Byte) : Option (ClientMessage × List Byte) :=
  match parseVarint 32 bs with
  | some (0, rest) => some (.hello, rest)
  | some (1, rest) =>
    match parseVarint 32 rest with
    | none => none
    | some (tick, rest1) =>
      match parseByteSeq rest1 with
      | none => none
      | some (payload, rest2) => some (.input tick payload, rest2)
  | _ => none

/-- postcard parser for `RelayMessage`. -/
def parseRelayMessage (bs : List Byte) : Option (RelayMessage × List Byte) :=
  match parseVarint 32 bs with
  | some (0, rest) =>
    match rest with
    | [] => none
    | b :: rest1 => some (.welcome b, rest1)
  | some (1, rest) => some (.gameStart, rest)
  | some (2, rest) =>
    match parseVarint 32 rest with
    | none => none
    | some (tick, rest1) =>
      match parseVarint 64 rest1 with
      | none => none
      | some (n, rest2) =>
        match parseVecs n rest2 with
        | none => none
        | some (inputs, rest3) => some (.tickInputs tick inputs, rest3)
  | _ => none

/-- `relay::deserialize::<ClientMessage>`: `postcard::from_bytes(..).ok()` —
parse a prefix, ignore trailing bytes, `none` on any decode error. -/
def deserializeClientMessage (bs : List Byte) : Option ClientMessage :=
  (parseClientMessage bs).map Prod.fst

/-- `relay::deserialize::<RelayMessage>`. -/
def deserializeRelayMessage (bs : List Byte) : Option RelayMessage :=
  (parseRelayMessage bs).map Prod.fst

/-- Well-formedness of a payload buffer as a constructible Rust `Vec<u8>`:
a real vector's length fits in `usize` and its elements are bytes. -/
def WFPayload (p : List Byte) : Prop :=
  p.length < 2 ^ 64 ∧ ∀ b ∈ p, b < 256

/-- Constructible `ClientMessage` values: the `u32` tick and the payload
vector are representable. -/
def WFClientMessage : ClientMessage → Prop
  | .hello => True
  | .input tick payload => tick < 2 ^ 32 ∧ WFPayload payload

/-- Constructible `RelayMessage` values. -/
def WFRelayMessage : RelayMessage → Prop
  | .welcome player_slot => player_slot < 256
  | .gameStart => True
  | .tickInputs tick inputs =>
    tick < 2 ^ 32 ∧ inputs.length < 2 ^ 64 ∧ ∀ p ∈ inputs, WFPayload p

/-! ## Relay server state and dispatch (`crates/relay/src/main.rs`)

`MAX_PLAYERS = 2`.  The fixed arrays `players : [Option<SocketAddr>; 2]` and
`tick_inputs : [Option<Vec<u8>>; 2]` are two-element lists; `iter().position`
is `List.findIdx?`, `iter().all` is `List.all`, `iter().flatten()` over the
options is `List.filterMap id`.  `current_tick : u32` wraps mod `2 ^ 32`. -/

/-- `RelayState` from `crates/relay/src/main.rs`. -/
structure RelayState where
  players : List (Option Addr)
  game_started : Bool
  current_tick : Nat
  tick_inputs : List (Option (List Byte))
deriving DecidableEq, Repr

/-- `RelayState::new()`. -/
def RelayState.new : RelayState :=
  { players := [none, none], game_started := false, current_tick := 0,
    tick_inputs := [none, none] }

/-- `RelayState::find_player`: `players.iter().position(|slot| slot.as_ref() == Some(addr))`. -/
def RelayState.find_player (s : RelayState) (addr : Addr) : Option Nat :=
  s.players.findIdx? (fun slot => slot == some addr)

/-- `RelayState::next_empty_slot`: `players.iter().position(|slot| slot.is_none())`. -/
def RelayState.next_empty_slot (s : RelayState) : Option Nat :=
  s.players.findIdx? (fun slot => slot.isNone)

/-- `RelayState::all_slots_filled`. -/
def RelayState.all_slots_filled (s : RelayState) : Bool :=
  s.players.all (fun slot => slot.isSome)

/-- `RelayState::all_inputs_received`. -/
def RelayState.all_inputs_received (s : RelayState) : Bool :=
  s.tick_inputs.all (fun input => input.isSome)

/-- One iteration of the relay server loop on an already-decoded datagram
`(src, msg)`: the updated state and the datagrams sent (in send order).
Mirrors the `match msg` in `main` of `crates/relay/src/main.rs`. -/
def relayStep (s : RelayState) (src : Addr) (msg : ClientMessage) :
    RelayState × List (Addr × RelayMessage) :=
  match msg with
  | .hello =>
    match s.find_player src with
    | some slot =>
      -- Already connected? Re-send welcome (and GameStart if running).
      if s.game_started then
        (s, [(src, .welcome slot), (src, .gameStart)])
      else
        (s, [(src, .welcome slot)])
    | none =>
      match s.next_empty_slot with
      | none => (s, [])  -- rejected, game is full
      | some slot =>
        let s1 : RelayState := { s with players := s.players.set slot (some src) }
        if s1.all_slots_filled && !s1.game_started then
          let s2 : RelayState := { s1 with game_started := true }
          (s2, (src, .welcome slot) ::
            (s2.players.filterMap id).map (fun addr => (addr, .gameStart)))
        else
          (s1, [(src, .welcome slot)])
  | .input tick payload =>
    match s.find_player src with
    | none => (s, [])  -- input from unknown client
    | some slot =>
      if tick ≠ s.current_tick then
        (s, [])  -- ignore inputs for wrong tick (stale or future)
      else
        let s1 : RelayState := { s with tick_inputs := s.tick_inputs.set slot (some payload) }
        if s1.all_inputs_received then
          let inputs : List (List Byte) := s1.tick_inputs.map (fun input => input.getD [])
          let out : RelayMessage := .tickInputs s1.current_tick inputs
          ({ s1 with current_tick := (s1.current_tick + 1) % 2 ^ 32,
                     tick_inputs := [none, none] },
           (s1.players.filterMap id).map (fun addr => (addr, out)))
        else
          (s1, [])

/-- The relay loop folded over a trace of decoded datagrams, recording each
iteration's sends separately (one list per datagram processed). -/
def relayRunFrom (s : RelayState) : List (Addr × ClientMessage) →
    RelayState × List (List (Addr × RelayMessage))
  | [] => (s, [])
  | (src, msg) :: rest =>
    let step := relayStep s src msg
    let run := relayRunFrom step.1 rest
    (run.1, step.2 :: run.2)

/-- A complete run of the relay loop from the initial state. -/
def relayRun (msgs : List (Addr × ClientMessage)) :
    RelayState × List (List (Addr × RelayMessage)) :=
  relayRunFrom RelayState.new msgs

/-- Number of `GameStart` datagrams among one iteration's sends. -/
def gameStartSends (sends : List (Addr × RelayMessage)) : Nat :=
  sends.countP (fun p => p.2 == RelayMessage.gameStart)

/-- An iteration broadcast `GameStart` (sent it to both players) — as opposed
to the single courtesy re-send answering a re-Hello. -/
def isGameStartBroadcast (sends : List (Addr × RelayMessage)) : Bool :=
  2 ≤ gameStartSends sends

/-- No two distinct slots hold the same address. -/
def distinctPlayers (s : RelayState) : Prop :=
  ∀ (i j : Nat) (a : Addr), i ≠ j →
    s.players[i]? = some (some a) → s.players[j]? = some (some a) → False

/-- Structural invariant of the relay loop: the two arrays keep their fixed
size and `game_started` tracks `all_slots_filled`. -/
def RelayInv (s : RelayState) : Prop :=
  s.players.length = 2 ∧ s.tick_inputs.length = 2 ∧
    s.game_started = s.all_slots_filled

/-! ## Client connection state machine and tick gate
(`crates/net_pong/src/main.rs`)

The bevy resources `ConnectionState`, `LocalPlayerSlot`, `SimulationTick`,
`TickReady`, `NeedToSendInput` and `PaddleInput.movement` are bundled into one
record.  `movement : [f32; 2]` stores `f32` values; we model each stored value
by its 32-bit pattern (`Nat`), since the protocol code only ever moves these
values and never computes with them. -/

/-- `ConnectionState` from `crates/net_pong/src/main.rs`. -/
inductive ConnectionState where
  | connecting
  | waitingForOpponent
  | playing
deriving DecidableEq, Repr

/-- The client's protocol-relevant resources. -/
structure ClientState where
  state : ConnectionState
  local_slot : Nat
  sim_tick : Nat
  tick_ready : Bool
  need_to_send_input : Bool
  movement : List Nat
deriving DecidableEq, Repr

/-- `postcard::from_bytes::<f32>` on a payload: postcard stores an `f32` as
its four little-endian bytes; decoding needs at least four bytes (trailing
bytes are ignored) and yields the 32-bit pattern. -/
def decodeF32Bits : List Byte → Option Nat
  | b0 :: b1 :: b2 :: b3 :: _ =>
    some (b0 + b1 * 256 + b2 * 256 ^ 2 + b3 * 256 ^ 3)
  | _ => none

/-- The loop `for (i, payload) in inputs.iter().enumerate()` of the
`TickInputs` arm: payloads that decode as `f32` overwrite `movement[i]`,
undecodable ones are skipped.  `i` is the running index. -/
def applyInputsFrom (i : Nat) (movement : List Nat) :
    List (List Byte) → List Nat
  | [] => movement
  | payload :: rest =>
    match decodeF32Bits payload with
    | some m => applyInputsFrom (i + 1) (movement.set i m) rest
    | none => applyInputsFrom (i + 1) movement rest

/-- Applying a `TickInputs` payload vector to the movement array. -/
def applyInputs (movement : List Nat) (inputs : List (List Byte)) : List Nat :=
  applyInputsFrom 0 movement inputs

/-- `receive_relay_messages`, restricted to the handling of one decoded
`RelayMessage` (the surrounding drain loop just iterates this). -/
def clientReceive (c : ClientState) (msg : RelayMessage) : ClientState :=
  match msg with
  | .welcome player_slot =>
    let c1 : ClientState := { c with local_slot := player_slot }
    if c1.state = .connecting then
      { c1 with state := .waitingForOpponent }
    else
      c1
  | .gameStart =>
    if c.state ≠ .playing then
      { c with state := .playing, need_to_send_input := true }
    else
      c
  | .tickInputs tick inputs =>
    if tick ≠ c.sim_tick then
      c
    else
      { c with movement := applyInputs c.movement inputs, tick_ready := true }

/-- The `run_if(is_playing).run_if(tick_is_ready)` gate on the chained
`FixedUpdate` simulation systems. -/
def simStepAllowed (c : ClientState) : Bool :=
  c.state == .playing && c.tick_ready

/-- `post_tick_advance`, the last system of the chained `FixedUpdate` set:
`sim_tick.0 += 1; tick_ready.0 = false; need_send.0 = true`. -/
def post_tick_advance (c : ClientState) : ClientState :=
  { c with sim_tick := (c.sim_tick + 1) % 2 ^ 32, tick_ready := false,
           need_to_send_input := true }

/-- One `FixedUpdate` schedule run: the chained simulation systems (abstract
deterministic `step` on the world `σ`) followed by `post_tick_advance`, all
gated by `run_if(is_playing).run_if(tick_is_ready)`. -/
def fixedUpdate {σ : Type} (step : σ → σ) (c : ClientState) (w : σ) :
    ClientState × σ :=
  if simStepAllowed c then (post_tick_advance c, step w) else (c, w)

/-- Position of a connection state along `Connecting → WaitingForOpponent →
Playing`, for stating that the machine never moves backwards. -/
def connRank : ConnectionState → Nat
  | .connecting => 0
  | .waitingForOpponent => 1
  | .playing => 2

theorem encodeVarint_low (v : Nat) (h : v < 128) : encodeVarint v = [v] := by
  rw [encodeVarint, if_pos h]

theorem encodeVarint_high (v : Nat) (h : 128 ≤ v) :
    encodeVarint v = (v % 128 + 128) :: encodeVarint (v / 128) := by
  rw [encodeVarint, if_neg (by omega)]

theorem parseVarintGo_encode (bits : Nat)
    (h7' : bits ≤ 7 * varintMax bits)
    (hlast : bits % 7 = bits - 7 * (varintMax bits - 1)) :
    ∀ f i out v rest, i + f = varintMax bits → 1 ≤ f →
      out + v * 2 ^ (7 * i) < 2 ^ bits →
      parseVarintGo bits f i out (encodeVarint v ++ rest) =
        some (out + v * 2 ^ (7 * i), rest) := by
  intro f
  induction f with
  | zero => intro i out v rest _ hf; omega
  | succ f ih =>
    intro i out v rest hifm _ hbound
    by_cases hv : v < 128
    · rw [encodeVarint_low v hv, List.cons_append, List.nil_append]
      show parseVarintGo bits (f + 1) i out (v :: rest) = _
      rw [parseVarintGo]
      have hmod : v % 128 = v := Nat.mod_eq_of_lt hv
      have hsmall : v * 2 ^ (7 * i) % 2 ^ bits = v * 2 ^ (7 * i) :=
        Nat.mod_eq_of_lt (by omega)
      have hcond : (i == varintMax bits - 1 && decide (maxOfLastByte bits < v)) = false := by
        rw [Bool.and_eq_false_iff]
        by_cases hi : i = varintMax bits - 1
        · right
          simp only [decide_eq_false_iff_not, not_lt, maxOfLastByte, hlast]
          have hvlt : v * 2 ^ (7 * (varintMax bits - 1)) < 2 ^ bits := by
            rw [← hi]; omega
          have hvsmall : v < 2 ^ (bits - 7 * (varintMax bits - 1)) := by
            by_contra hge
            push_neg at hge
            have h2 : 2 ^ (bits - 7 * (varintMax bits - 1)) * 2 ^ (7 * (varintMax bits - 1)) ≤
                v * 2 ^ (7 * (varintMax bits - 1)) := Nat.mul_le_mul_right _ hge
            rw [← Nat.pow_add] at h2
            have heq : bits - 7 * (varintMax bits - 1) + 7 * (varintMax bits - 1) = bits := by
              have hvm : varintMax bits = (bits + 6) / 7 := rfl
              omega
            rw [heq] at h2
            omega
          omega
        · left; simpa using hi
      simp only [hmod, hsmall, if_pos hv, hcond, Bool.false_eq_true, if_false]
    · push_neg at hv
      rw [encodeVarint_high v hv, List.cons_append]
      show parseVarintGo bits (f + 1) i out ((v % 128 + 128) :: _) = _
      rw [parseVarintGo]
      have hb : ¬ (v % 128 + 128 < 128) := by omega
      have hbm : (v % 128 + 128) % 128 = v % 128 := by omega
      have hmle : v % 128 * 2 ^ (7 * i) ≤ v * 2 ^ (7 * i) :=
        Nat.mul_le_mul_right _ (Nat.mod_le v 128)
      have hsmall : v % 128 * 2 ^ (7 * i) % 2 ^ bits = v % 128 * 2 ^ (7 * i) :=
        Nat.mod_eq_of_lt (by omega)
      simp only [hbm, hsmall, if_neg hb]
      have hpow : 2 ^ (7 * (i + 1)) = 2 ^ (7 * i) * 128 := by
        rw [show 7 * (i + 1) = 7 * i + 7 by ring, Nat.pow_add]
      have hvsplit : v % 128 * 2 ^ (7 * i) + v / 128 * 2 ^ (7 * (i + 1)) = v * 2 ^ (7 * i) := by
        rw [hpow]
        calc v % 128 * 2 ^ (7 * i) + v / 128 * (2 ^ (7 * i) * 128)
            = (v % 128 + 128 * (v / 128)) * 2 ^ (7 * i) := by ring
        _ = v * 2 ^ (7 * i) := by rw [Nat.mod_add_div v 128]
      have hfe : 1 ≤ f := by
        by_contra hf0
        have hf0 : f = 0 := by omega
        have hi : i = varintMax bits - 1 := by omega
        have hge : 2 ^ bits ≤ v * 2 ^ (7 * i) := by
          calc 2 ^ bits ≤ 2 ^ (7 * varintMax bits) := Nat.pow_le_pow_right (by omega) h7'
          _ = 2 ^ (7 * (varintMax bits - 1) + 7) := by
              rw [show 7 * varintMax bits = 7 * (varintMax bits - 1) + 7 from by omega]
          _ = 128 * 2 ^ (7 * (varintMax bits - 1)) := by rw [Nat.pow_add]; ring
          _ ≤ v * 2 ^ (7 * (varintMax bits - 1)) := Nat.mul_le_mul_right _ hv
          _ = v * 2 ^ (7 * i) := by rw [hi]
        omega
      have hrec := ih (i + 1) (out + v % 128 * 2 ^ (7 * i)) (v / 128) rest
        (by omega) hfe (by omega)
      rw [hrec]
      congr 2
      omega

theorem parseVarint_encode_32 (v : Nat) (hv : v < 2 ^ 32) (rest : List Byte) :
    parseVarint 32 (encodeVarint v ++ rest) = some (v, rest) := by
  have h := parseVarintGo_encode 32 (by decide) (by decide) 5 0 0 v rest
    (by decide) (by decide) (by simpa using hv)
  simpa [parseVarint, varintMax] using h

theorem parseVarint_encode_64 (v : Nat) (hv : v < 2 ^ 64) (rest : List Byte) :
    parseVarint 64 (encodeVarint v ++ rest) = some (v, rest) := by
  have h := parseVarintGo_encode 64 (by decide) (by decide) 10 0 0 v rest
    (by decide) (by decide) (by simpa using hv)
  simpa [parseVarint, varintMax] using h

theorem parseByteSeq_encode (xs : List Byte) (h : xs.length < 2 ^ 64) (rest : List Byte) :
    parseByteSeq (encodeByteSeq xs ++ rest) = some (xs, rest) := by
  rw [encodeByteSeq, List.append_assoc, parseByteSeq,
    parseVarint_encode_64 xs.length h (xs ++ rest)]
  simp only [List.length_append, if_pos (by omega : xs.length ≤ xs.length + rest.length)]
  rw [List.take_left, List.drop_left]

theorem parseVecs_encode (inputs : List (List Byte))
    (h : ∀ p ∈ inputs, p.length < 2 ^ 64) (rest : List Byte) :
    parseVecs inputs.length ((inputs.map encodeByteSeq).flatten ++ rest) =
      some (inputs, rest) := by
  induction inputs generalizing rest with
  | nil => simp [parseVecs]
  | cons p ps ih =>
    simp only [List.map_cons, List.flatten_cons, List.length_cons, List.append_assoc]
    rw [parseVecs, parseByteSeq_encode p (h p (by simp)) _]
    simp only []
    rw [ih (fun q hq => h q (by simp [hq])) rest]

theorem encodeVarint_zero : encodeVarint 0 = [0] := encodeVarint_low 0 (by norm_num)

theorem encodeVarint_one : encodeVarint 1 = [1] := encodeVarint_low 1 (by norm_num)

theorem encodeVarint_two : encodeVarint 2 = [2] := encodeVarint_low 2 (by norm_num)

theorem deserialize_serialize_client (m : ClientMessage) (h : WFClientMessage m) :
    deserializeClientMessage (serializeClientMessage m) = some m := by
  cases m with
  | hello =>
    rw [show serializeClientMessage .hello = [0] from by
      simp [serializeClientMessage, encodeVarint_zero]]
    rfl
  | input tick payload =>
    obtain ⟨htick, hlen, -⟩ := h
    simp only [serializeClientMessage, deserializeClientMessage, parseClientMessage]
    rw [show encodeVarint 1 ++ encodeVarint tick ++ encodeByteSeq payload =
          encodeVarint 1 ++ (encodeVarint tick ++ (encodeByteSeq payload ++ [])) by simp,
        parseVarint_encode_32 1 (by norm_num)]
    simp only []
    rw [parseVarint_encode_32 tick htick]
    simp only []
    rw [parseByteSeq_encode payload hlen []]
    rfl

theorem deserialize_serialize_relay (m : RelayMessage) (h : WFRelayMessage m) :
    deserializeRelayMessage (serializeRelayMessage m) = some m := by
  cases m with
  | welcome player_slot =>
    rw [show serializeRelayMessage (.welcome player_slot) = [0, player_slot] from by
      simp [serializeRelayMessage, encodeVarint_zero]]
    rfl
  | gameStart =>
    rw [show serializeRelayMessage .gameStart = [1] from by
      simp [serializeRelayMessage, encodeVarint_one]]
    rfl
  | tickInputs tick inputs =>
    obtain ⟨htick, hn, hp⟩ := h
    simp only [serializeRelayMessage, deserializeRelayMessage, parseRelayMessage]
    rw [show encodeVarint 2 ++ encodeVarint tick ++ encodeVarint inputs.length ++
          (inputs.map encodeByteSeq).flatten =
          encodeVarint 2 ++ (encodeVarint tick ++ (encodeVarint inputs.length ++
            ((inputs.map encodeByteSeq).flatten ++ []))) by simp,
        parseVarint_encode_32 2 (by norm_num)]
    simp only []
    rw [parseVarint_encode_32 tick htick]
    simp only []
    rw [parseVarint_encode_64 inputs.length hn]
    simp only []
    rw [parseVecs_encode inputs (fun p hq => (hp p hq).1) []]
    rfl

theorem parseVarint32_head (b : Nat) (rest : List Byte) (hb : b < 128) :
    parseVarint 32 (b :: rest) = some (b, rest) := by
  have h32 : b % 2 ^ 32 = b := Nat.mod_eq_of_lt (by omega)
  simp [parseVarint, parseVarintGo, varintMax, Nat.mod_eq_of_lt hb, hb, h32]
  omega

/-- C2: for every constructible protocol message (every `ClientMessage` and
`RelayMessage` value with representable `u32` / `u8` / `Vec` components),
deserializing the bytes produced by serializing it yields exactly the
message back: `decode(encode(m)) = some m`. -/
theorem C2_decode_encode_roundtrip :
    (∀ m : ClientMessage, WFClientMessage m →
      deserializeClientMessage (serializeClientMessage m) = some m) ∧
    (∀ m : RelayMessage, WFRelayMessage m →
      deserializeRelayMessage (serializeRelayMessage m) = some m) :=
  ⟨deserialize_serialize_client, deserialize_serialize_relay⟩

/-- Witness for C2 at the concrete messages `Input{tick: 300, payload: [9, 8, 250]}`
and `TickInputs{tick: 7, inputs: [[1], [2, 3]]}`. -/
theorem C2_decode_encode_roundtrip_witness :
    deserializeClientMessage (serializeClientMessage (.input 300 [9, 8, 250])) =
      some (.input 300 [9, 8, 250]) ∧
    deserializeRelayMessage (serializeRelayMessage (.tickInputs 7 [[1], [2, 3]])) =
      some (.tickInputs 7 [[1], [2, 3]]) :=
  ⟨C2_decode_encode_roundtrip.1 _ (by
      refine ⟨by norm_num, by norm_num, ?_⟩
      intro b hb
      fin_cases hb <;> norm_num),
   C2_decode_encode_roundtrip.2 _ (by
      refine ⟨by norm_num, by norm_num, ?_⟩
      intro p hp
      fin_cases hp <;> exact ⟨by norm_num, by intro b hb; fin_cases hb <;> norm_num⟩)⟩

/-- C9: `deserialize` is a total function on arbitrary byte buffers — every
buffer yields an explicit `none` or a decoded message, never a fault; in
particular every short or malformed buffer whose first byte is not a valid
variant index (e.g. the 3-byte buffers `[2,0,0]` / `[3,0,0]`) decodes to
`none`. -/
theorem C9_decode_total :
    (∀ bs : List Byte, deserializeClientMessage bs = none ∨
      ∃ m, deserializeClientMessage bs = some m) ∧
    (∀ bs : List Byte, deserializeRelayMessage bs = none ∨
      ∃ m, deserializeRelayMessage bs = some m) ∧
    (∀ (b : Nat) (rest : List Byte), 2 ≤ b → b < 128 →
      deserializeClientMessage (b :: rest) = none) ∧
    (∀ (b : Nat) (rest : List Byte), 3 ≤ b → b < 128 →
      deserializeRelayMessage (b :: rest) = none) ∧
    deserializeClientMessage [2, 0, 0] = none ∧
    deserializeRelayMessage [3, 0, 0] = none := by
  refine ⟨fun bs => ?_, fun bs => ?_, fun b rest h2 h128 => ?_,
    fun b rest h3 h128 => ?_, rfl, rfl⟩
  · cases h : deserializeClientMessage bs with
    | none => exact Or.inl rfl
    | some m => exact Or.inr ⟨m, rfl⟩
  · cases h : deserializeRelayMessage bs with
    | none => exact Or.inl rfl
    | some m => exact Or.inr ⟨m, rfl⟩
  · obtain ⟨n, rfl⟩ : ∃ n, b = n + 2 := ⟨b - 2, by omega⟩
    rw [deserializeClientMessage, parseClientMessage, parseVarint32_head _ _ h128]
    rfl
  · obtain ⟨n, rfl⟩ : ∃ n, b = n + 3 := ⟨b - 3, by omega⟩
    rw [deserializeRelayMessage, parseRelayMessage, parseVarint32_head _ _ h128]
    rfl

/-- Witness for C9 at the concrete malformed buffers `[5, 7]` and `[9]`. -/
theorem C9_decode_total_witness :
    deserializeClientMessage [5, 7] = none ∧ deserializeRelayMessage [9] = none :=
  ⟨C9_decode_total.2.2.1 5 [7] (by norm_num) (by norm_num),
   C9_decode_total.2.2.2.1 9 [] (by norm_num) (by norm_num)⟩

theorem findIdx?_pair {α : Type} (p : α → Bool) (a b : α) :
    [a, b].findIdx? p = if p a then some 0 else if p b then some 1 else none := by
  by_cases ha : p a <;> by_cases hb : p b <;>
    simp [List.findIdx?_cons, ha, hb]

/-- C1: relay handling of `Input{tick, payload}` from a known address `src`
occupying `slot`, in a state where both player slots are filled: a mismatched
tick leaves the whole state unchanged and sends nothing; a matching tick
records the payload in the sender's slot (overwriting it), and exactly when
both slots then hold a buffered input, `TickInputs{current_tick, inputs}`
(inputs in slot order) is broadcast to both addresses, `current_tick` becomes
`T + 1` and both buffered inputs are cleared. -/
theorem C1_relay_input_handling
    (s : RelayState) (a0 a1 src : Addr) (slot : Nat)
    (hp : s.players = [some a0, some a1])
    (hf : s.find_player src = some slot)
    (hov : s.current_tick + 1 < 2 ^ 32) :
    (∀ tick payload, tick ≠ s.current_tick →
      relayStep s src (.input tick payload) = (s, [])) ∧
    (∀ payload,
      (({ s with tick_inputs := s.tick_inputs.set slot (some payload) } :
            RelayState).all_inputs_received = false →
        relayStep s src (.input s.current_tick payload) =
          ({ s with tick_inputs := s.tick_inputs.set slot (some payload) }, [])) ∧
      (({ s with tick_inputs := s.tick_inputs.set slot (some payload) } :
            RelayState).all_inputs_received = true →
        relayStep s src (.input s.current_tick payload) =
          ({ s with current_tick := s.current_tick + 1, tick_inputs := [none, none] },
           [(a0, .tickInputs s.current_tick
              ((s.tick_inputs.set slot (some payload)).map (fun o => o.getD []))),
            (a1, .tickInputs s.current_tick
              ((s.tick_inputs.set slot (some payload)).map (fun o => o.getD [])))]))) := by
  refine ⟨fun tick payload hne => ?_, fun payload => ⟨fun hall => ?_, fun hall => ?_⟩⟩
  · simp [relayStep, hf, hne]
  · simp only [relayStep, hf]
    rw [if_neg (by simp)]
    simp only [hall, Bool.false_eq_true, if_false]
  · simp only [relayStep, hf]
    rw [if_neg (by simp)]
    simp only [hall, if_true]
    rw [Nat.mod_eq_of_lt hov]
    simp [hp]

/-- Witness for C1: in a running two-player session at tick 0 with player 0's
input already buffered, an `Input{tick: 0}` from player 1 completes the tick
(broadcast, advance, clear), while an `Input{tick: 5}` is dropped. -/
theorem C1_relay_input_handling_witness :
    relayStep { players := [some 1, some 2], game_started := true, current_tick := 0,
                tick_inputs := [some [9], none] } 2 (.input 0 [7]) =
      ({ players := [some 1, some 2], game_started := true, current_tick := 1,
         tick_inputs := [none, none] },
       [(1, .tickInputs 0 [[9], [7]]), (2, .tickInputs 0 [[9], [7]])]) ∧
    relayStep { players := [some 1, some 2], game_started := true, current_tick := 0,
                tick_inputs := [some [9], none] } 2 (.input 5 [7]) =
      ({ players := [some 1, some 2], game_started := true, current_tick := 0,
         tick_inputs := [some [9], none] }, []) := by
  have h := C1_relay_input_handling
    { players := [some 1, some 2], game_started := true, current_tick := 0,
      tick_inputs := [some [9], none] } 1 2 2 1 rfl (by decide) (by norm_num)
  exact ⟨(h.2 [7]).2 (by decide), h.1 5 [7] (by norm_num)⟩

theorem findIdx?_cons_eq {α : Type} (p : α → Bool) (a : α) (l : List α) :
    (a :: l).findIdx? p =
      if p a then some 0 else (l.findIdx? p).map (fun i => i + 1) := by
  simp [List.findIdx?_cons]

theorem findIdx?_some_get {α : Type} (p : α → Bool) (l : List α) :
    ∀ i, l.findIdx? p = some i → ∃ x, l[i]? = some x ∧ p x = true := by
  induction l with
  | nil => intro i h; simp [List.findIdx?] at h
  | cons a l ih =>
    intro i h
    rw [findIdx?_cons_eq] at h
    by_cases ha : p a
    · rw [if_pos ha] at h
      obtain rfl : (0 : Nat) = i := by simpa using h
      exact ⟨a, by simp, ha⟩
    · rw [if_neg ha] at h
      obtain ⟨j, hj, rfl⟩ := Option.map_eq_some'.mp h
      obtain ⟨x, hx, hpx⟩ := ih j hj
      exact ⟨x, by simpa using hx, hpx⟩

theorem findIdx?_none_all {α : Type} (p : α → Bool) (l : List α)
    (h : l.findIdx? p = none) : ∀ x ∈ l, p x = false := by
  intro x hx
  rw [List.findIdx?_eq_none_iff] at h
  simpa using h x hx

/-- C6: from the initial relay state, Hello from a fresh address `A` followed
by Hello from a distinct fresh address `B` assigns `A` slot 0 and `B` slot 1
(with the corresponding `Welcome` unicasts and the `GameStart` broadcast);
and in general `next_empty_slot` returns the first slot in index order
(0 before 1) holding no address. -/
theorem C6_slot_assignment_determinism (A B : Addr) (hAB : A ≠ B) :
    relayRun [(A, .hello), (B, .hello)] =
      ({ players := [some A, some B], game_started := true, current_tick := 0,
         tick_inputs := [none, none] },
       [[(A, .welcome 0)], [(B, .welcome 1), (A, .gameStart), (B, .gameStart)]]) ∧
    (∀ (s : RelayState) (p0 p1 : Option Addr), s.players = [p0, p1] →
      s.next_empty_slot =
        if p0.isNone then some 0 else if p1.isNone then some 1 else none) := by
  constructor
  · simp [relayRun, relayRunFrom, relayStep, RelayState.new, RelayState.find_player,
      RelayState.next_empty_slot, RelayState.all_slots_filled, findIdx?_pair,
      beq_iff_eq, hAB]
  · intro s p0 p1 hp
    rw [RelayState.next_empty_slot, hp, findIdx?_pair]

/-- Witness for C6 at the concrete addresses `A = 1`, `B = 2` and the initial
state for the `next_empty_slot` conjunct. -/
theorem C6_slot_assignment_determinism_witness :
    relayRun [(1, .hello), (2, .hello)] =
      ({ players := [some 1, some 2], game_started := true, current_tick := 0,
         tick_inputs := [none, none] },
       [[(1, .welcome 0)], [(2, .welcome 1), (1, .gameStart), (2, .gameStart)]]) ∧
    RelayState.new.next_empty_slot = some 0 :=
  ⟨(C6_slot_assignment_determinism 1 2 (by norm_num)).1,
   (C6_slot_assignment_determinism 1 2 (by norm_num)).2 RelayState.new none none rfl⟩

/-- C8: once a slot's address is assigned, no later message of any kind
changes or clears it (in any state, `relayStep` preserves every assigned
slot address); and a repeated Hello from an already-known address leaves the
entire relay state unchanged. -/
theorem C8_slot_address_immutability :
    (∀ (s : RelayState) (src : Addr) (msg : ClientMessage) (i : Nat) (a : Addr),
      s.players[i]? = some (some a) →
      (relayStep s src msg).1.players[i]? = some (some a)) ∧
    (∀ (s : RelayState) (src : Addr) (slot : Nat),
      s.find_player src = some slot → (relayStep s src .hello).1 = s) := by
  constructor
  · intro s src msg i a hi
    cases msg with
    | hello =>
      rcases hfp : s.find_player src with _ | slot
      · rcases hne : s.next_empty_slot with _ | slot
        · simpa [relayStep, hfp, hne] using hi
        · obtain ⟨x, hx, hnx⟩ := findIdx?_some_get _ _ _ hne
          obtain rfl : x = none := Option.isNone_iff_eq_none.mp hnx
          have hislot : i ≠ slot := by
            intro heq
            rw [heq, hx] at hi
            exact Option.noConfusion (Option.some.inj hi)
          by_cases hfill : ({ s with players := s.players.set slot (some src) } :
              RelayState).all_slots_filled && !s.game_started <;>
            simp [relayStep, hfp, hne, hfill, List.getElem?_set_ne (Ne.symm hislot), hi]
      · by_cases hgs : s.game_started <;> simp [relayStep, hfp, hgs, hi]
    | input tick payload =>
      rcases hfp : s.find_player src with _ | slot
      · simpa [relayStep, hfp] using hi
      · by_cases htk : tick ≠ s.current_tick
        · simpa [relayStep, hfp, htk] using hi
        · by_cases hall : ({ s with tick_inputs := s.tick_inputs.set slot (some payload) } :
              RelayState).all_inputs_received <;>
            simp [relayStep, hfp, htk, hall, hi]
  · intro s src slot hf
    by_cases hgs : s.game_started <;> simp [relayStep, hf, hgs]

/-- Witness for C8: in a one-player state, a Hello from a second address and
an Input from the first both leave slot 0's stored address intact, and a
repeated Hello from the known address changes nothing. -/
theorem C8_slot_address_immutability_witness :
    (relayStep { players := [some 7, none], game_started := false, current_tick := 0,
                 tick_inputs := [none, none] } 8 .hello).1.players[0]? = some (some 7) ∧
    (relayStep { players := [some 7, none], game_started := false, current_tick := 0,
                 tick_inputs := [none, none] } 7 .hello).1 =
      { players := [some 7, none], game_started := false, current_tick := 0,
        tick_inputs := [none, none] } :=
  ⟨C8_slot_address_immutability.1 _ 8 .hello 0 7 rfl,
   C8_slot_address_immutability.2 _ 7 0 (by decide)⟩

theorem relayStep_preserves_distinct (s : RelayState) (src : Addr)
    (msg : ClientMessage) (h : distinctPlayers s) :
    distinctPlayers (relayStep s src msg).1 := by
  cases msg with
  | hello =>
    rcases hfp : s.find_player src with _ | slot
    · rcases hne : s.next_empty_slot with _ | slot
      · simpa [relayStep, hfp, hne] using h
      · obtain ⟨x, hx, hnx⟩ := findIdx?_some_get _ _ _ hne
        obtain rfl : x = none := Option.isNone_iff_eq_none.mp hnx
        have hnotin : ∀ y ∈ s.players, (y == some src) = false :=
          findIdx?_none_all _ _ hfp
        have hset : distinctPlayers
            { s with players := s.players.set slot (some src) } := by
          intro i j a hij hi hj
          by_cases hislot : i = slot
          · subst hislot
            have hj2 : s.players[j]? = some (some a) := by
              rwa [List.getElem?_set_ne (Ne.symm (fun hji => hij hji.symm))] at hj
            have hslotlen : i < s.players.length := by
              by_contra hge
              rw [List.getElem?_eq_none (by omega)] at hx
              exact Option.noConfusion hx
            rw [List.getElem?_set_self hslotlen] at hi
            obtain rfl : src = a := by simpa using hi
            have := hnotin _ (List.getElem?_mem hj2)
            simp at this
          · by_cases hjslot : j = slot
            · subst hjslot
              have hi2 : s.players[i]? = some (some a) := by
                rwa [List.getElem?_set_ne (Ne.symm hislot)] at hi
              have hslotlen : j < s.players.length := by
                by_contra hge
                rw [List.getElem?_eq_none (by omega)] at hx
                exact Option.noConfusion hx
              rw [List.getElem?_set_self hslotlen] at hj
              obtain rfl : src = a := by simpa using hj
              have := hnotin _ (List.getElem?_mem hi2)
              simp at this
            · rw [List.getElem?_set_ne (Ne.symm hislot)] at hi
              rw [List.getElem?_set_ne (Ne.symm hjslot)] at hj
              exact h i j a hij hi hj
        by_cases hfill : ({ s with players := s.players.set slot (some src) } :
            RelayState).all_slots_filled && !s.game_started
        · intro i j a hij hi hj
          simp only [relayStep, hfp, hne, hfill, if_true] at hi hj
          exact hset i j a hij hi hj
        · intro i j a hij hi hj
          simp only [relayStep, hfp, hne, hfill, Bool.false_eq_true, if_false] at hi hj
          exact hset i j a hij hi hj
    · by_cases hgs : s.game_started <;> simpa [relayStep, hfp, hgs] using h
  | input tick payload =>
    rcases hfp : s.find_player src with _ | slot
    · simpa [relayStep, hfp] using h
    · by_cases htk : tick ≠ s.current_tick
      · simpa [relayStep, hfp, htk] using h
      · by_cases hall : ({ s with tick_inputs := s.tick_inputs.set slot (some payload) } :
            RelayState).all_inputs_received <;>
          · intro i j a hij hi hj
            simp only [relayStep, hfp, htk] at hi hj
            simp [hall] at hi hj
            exact h i j a hij hi hj

theorem relayRunFrom_distinct (msgs : List (Addr × ClientMessage)) :
    ∀ s : RelayState, distinctPlayers s → distinctPlayers (relayRunFrom s msgs).1 := by
  induction msgs with
  | nil => intro s h; simpa [relayRunFrom] using h
  | cons sm rest ih =>
    intro s h
    obtain ⟨src, msg⟩ := sm
    simpa [relayRunFrom] using ih _ (relayStep_preserves_distinct s src msg h)

/-- C10: in every reachable relay state, no two slots hold the same address:
the session table built by any sequence of datagrams from the initial state
assigns each address to at most one slot, so `find_player`'s linear scan is
unambiguous. -/
theorem C10_slot_uniqueness (msgs : List (Addr × ClientMessage)) :
    distinctPlayers (relayRun msgs).1 := by
  apply relayRunFrom_distinct
  intro i j a hij hi hj
  rcases i with _ | _ | i <;> simp [RelayState.new] at hi

theorem gameStartSends_map_const (addrs : List Addr) (m : RelayMessage)
    (hm : (m == RelayMessage.gameStart) = false) :
    gameStartSends (addrs.map (fun a => (a, m))) = 0 := by
  rw [gameStartSends, List.countP_eq_zero]
  intro x hx
  obtain ⟨a, -, rfl⟩ := List.mem_map.mp hx
  simp [hm]

theorem relayStep_gameStart_flip (s : RelayState) (src : Addr) (msg : ClientMessage)
    (h : RelayInv s) :
    RelayInv (relayStep s src msg).1 ∧
    (s.game_started = true → (relayStep s src msg).1.game_started = true) ∧
    isGameStartBroadcast (relayStep s src msg).2 =
      (!s.game_started && (relayStep s src msg).1.game_started) := by
  obtain ⟨hp2, ht2, hgs⟩ := h
  obtain ⟨p0, p1, hp⟩ := List.length_eq_two.mp hp2
  have hallf : s.all_slots_filled = (p0.isSome && p1.isSome) := by
    simp [RelayState.all_slots_filled, hp]
  cases msg with
  | hello =>
    have known : ∀ k, s.find_player src = some k →
        RelayInv (relayStep s src .hello).1 ∧
        (s.game_started = true → (relayStep s src .hello).1.game_started = true) ∧
        isGameStartBroadcast (relayStep s src .hello).2 =
          (!s.game_started && (relayStep s src .hello).1.game_started) := by
      intro k hfp
      by_cases hg : s.game_started
      · have hstep : relayStep s src .hello =
            (s, [(src, .welcome k), (src, .gameStart)]) := by
          simp [relayStep, hfp, hg]
        rw [hstep]
        exact ⟨⟨hp2, ht2, hgs⟩, fun h2 => h2, by
          simp [isGameStartBroadcast, gameStartSends, List.countP_cons, hg]⟩
      · have hstep : relayStep s src .hello = (s, [(src, .welcome k)]) := by
          simp [relayStep, hfp, hg]
        rw [hstep]
        exact ⟨⟨hp2, ht2, hgs⟩, fun h2 => h2, by
          simp [isGameStartBroadcast, gameStartSends, List.countP_cons, hg]⟩
    by_cases e0 : p0 = some src
    · exact known 0 (by rw [RelayState.find_player, hp, findIdx?_pair]; simp [e0])
    · by_cases e1 : p1 = some src
      · exact known 1 (by rw [RelayState.find_player, hp, findIdx?_pair]; simp [e0, e1])
      · have hfp : s.find_player src = none := by
          rw [RelayState.find_player, hp, findIdx?_pair]
          simp [e0, e1]
        rcases hq0 : p0 with _ | a0
        · subst hq0
          have hne : s.next_empty_slot = some 0 := by
            rw [RelayState.next_empty_slot, hp, findIdx?_pair]
            simp
          have hgsf : s.game_started = false := by
            rw [hgs, hallf]
            simp
          rcases hq1 : p1 with _ | a1
          · subst hq1
            have hstep : relayStep s src .hello =
                ({ s with players := s.players.set 0 (some src) },
                 [(src, .welcome 0)]) := by
              simp [relayStep, hfp, hne, RelayState.all_slots_filled, hp, hgsf]
            rw [hstep]
            refine ⟨⟨by simp [hp], ht2, ?_⟩, fun h2 => absurd h2 (by simp [hgsf]), ?_⟩
            · simp [RelayState.all_slots_filled, hp, hgsf]
            · simp [isGameStartBroadcast, gameStartSends, List.countP_cons, hgsf]
          · subst hq1
            have hstep : relayStep s src .hello =
                ({ s with players := s.players.set 0 (some src), game_started := true },
                 [(src, .welcome 0), (src, .gameStart), (a1, .gameStart)]) := by
              simp [relayStep, hfp, hne, RelayState.all_slots_filled, hp, hgsf]
            rw [hstep]
            refine ⟨⟨by simp [hp], ht2, ?_⟩, fun h2 => rfl, ?_⟩
            · simp [RelayState.all_slots_filled, hp]
            · simp [isGameStartBroadcast, gameStartSends, List.countP_cons, hgsf]
        · subst hq0
          rcases hq1 : p1 with _ | a1
          · subst hq1
            have hne : s.next_empty_slot = some 1 := by
              rw [RelayState.next_empty_slot, hp, findIdx?_pair]
              simp
            have hgsf : s.game_started = false := by
              rw [hgs, hallf]
              simp
            have hstep : relayStep s src .hello =
                ({ s with players := s.players.set 1 (some src), game_started := true },
                 [(src, .welcome 1), (a0, .gameStart), (src, .gameStart)]) := by
              simp [relayStep, hfp, hne, RelayState.all_slots_filled, hp, hgsf]
            rw [hstep]
            refine ⟨⟨by simp [hp], ht2, ?_⟩, fun h2 => rfl, ?_⟩
            · simp [RelayState.all_slots_filled, hp]
            · simp [isGameStartBroadcast, gameStartSends, List.countP_cons, hgsf]
          · subst hq1
            have hne : s.next_empty_slot = none := by
              rw [RelayState.next_empty_slot, hp, findIdx?_pair]
              simp
            have hstep : relayStep s src .hello = (s, []) := by
              simp [relayStep, hfp, hne]
            rw [hstep]
            exact ⟨⟨hp2, ht2, hgs⟩, fun h2 => h2, by
              simp [isGameStartBroadcast, gameStartSends]⟩
  | input tick payload =>
    rcases hfp : s.find_player src with _ | slot
    · have hstep : relayStep s src (.input tick payload) = (s, []) := by
        simp [relayStep, hfp]
      rw [hstep]
      exact ⟨⟨hp2, ht2, hgs⟩, fun h2 => h2, by
        simp [isGameStartBroadcast, gameStartSends]⟩
    · by_cases htk : tick ≠ s.current_tick
      · have hstep : relayStep s src (.input tick payload) = (s, []) := by
          simp [relayStep, hfp, htk]
        rw [hstep]
        exact ⟨⟨hp2, ht2, hgs⟩, fun h2 => h2, by
          simp [isGameStartBroadcast, gameStartSends]⟩
      · by_cases hai : ({ s with tick_inputs := s.tick_inputs.set slot (some payload) } :
            RelayState).all_inputs_received
        · have hstep : relayStep s src (.input tick payload) =
              ({ s with current_tick := (s.current_tick + 1) % 2 ^ 32,
                        tick_inputs := [none, none] },
               (s.players.filterMap id).map (fun addr => (addr,
                 RelayMessage.tickInputs s.current_tick
                   ((s.tick_inputs.set slot (some payload)).map
                     (fun input => input.getD []))))) := by
            simp [relayStep, hfp, htk, hai]
          rw [hstep]
          refine ⟨⟨by simp [hp], by simp, hgs⟩, fun h2 => h2, ?_⟩
          simp only [isGameStartBroadcast]
          rw [gameStartSends_map_const _ _ (by simp)]
          simp
        · have hstep : relayStep s src (.input tick payload) =
              ({ s with tick_inputs := s.tick_inputs.set slot (some payload) }, []) := by
            simp [relayStep, hfp, htk, hai]
          rw [hstep]
          refine ⟨⟨by simp [hp], by simp [ht2], hgs⟩, fun h2 => h2, ?_⟩
          simp [isGameStartBroadcast, gameStartSends]

theorem relayRunFrom_gameStart (msgs : List (Addr × ClientMessage)) :
    ∀ s : RelayState, RelayInv s →
      RelayInv (relayRunFrom s msgs).1 ∧
      (relayRunFrom s msgs).2.countP isGameStartBroadcast +
        (if s.game_started then 1 else 0) =
        (if (relayRunFrom s msgs).1.game_started then 1 else 0) := by
  induction msgs with
  | nil =>
    intro s h
    exact ⟨by simpa [relayRunFrom] using h, by simp [relayRunFrom]⟩
  | cons sm rest ih =>
    intro s h
    obtain ⟨src, msg⟩ := sm
    obtain ⟨hinv1, hmono, hflip⟩ := relayStep_gameStart_flip s src msg h
    obtain ⟨hinv2, hcount⟩ := ih (relayStep s src msg).1 hinv1
    refine ⟨by simpa [relayRunFrom] using hinv2, ?_⟩
    simp only [relayRunFrom, List.countP_cons, hflip]
    rcases hsg : s.game_started <;>
      rcases hsg2 : (relayStep s src msg).1.game_started
    · simp [hsg, hsg2] at hcount ⊢
      omega
    · simp [hsg, hsg2] at hcount ⊢
      omega
    · exact absurd (hmono hsg) (by rw [hsg2]; simp)
    · simp [hsg, hsg2] at hcount ⊢
      omega

/-- C4: in every run of the relay loop from the initial state, a `GameStart`
broadcast (a `GameStart` sent to both addresses within one iteration) occurs
if and only if both player slots have been filled, and it occurs at most once
— exactly once when the final state has both slots filled; only the unicast
courtesy re-send to a re-helloing known address can repeat. -/
theorem C4_gameStart_broadcast_iff_once (msgs : List (Addr × ClientMessage)) :
    (relayRun msgs).1.game_started = (relayRun msgs).1.all_slots_filled ∧
    (relayRun msgs).2.countP isGameStartBroadcast =
      (if (relayRun msgs).1.all_slots_filled then 1 else 0) ∧
    (relayRun msgs).2.countP isGameStartBroadcast ≤ 1 := by
  obtain ⟨⟨-, -, hgs⟩, hcount⟩ :=
    relayRunFrom_gameStart msgs RelayState.new ⟨rfl, rfl, rfl⟩
  have hc : (relayRunFrom RelayState.new msgs).2.countP isGameStartBroadcast =
      (if (relayRunFrom RelayState.new msgs).1.game_started then 1 else 0) := by
    simpa [RelayState.new] using hcount
  simp only [relayRun]
  exact ⟨hgs, by rw [hc, hgs], by rw [hc]; split <;> omega⟩

/-- C7: the client connection state machine on inbound relay messages:
`Welcome{slot}` while `Connecting` records the slot and moves to
`WaitingForOpponent`; `Welcome{slot}` past `Connecting` updates the slot but
keeps the state; `GameStart` while not `Playing` moves to `Playing` and sets
`need_to_send_input`, and changes nothing when already `Playing`; and no
message ever decreases the state's position along
Connecting → WaitingForOpponent → Playing. -/
theorem C7_connection_state_machine :
    (∀ (c : ClientState) (slot : Nat), c.state = .connecting →
      clientReceive c (.welcome slot) =
        { c with local_slot := slot, state := .waitingForOpponent }) ∧
    (∀ (c : ClientState) (slot : Nat), c.state ≠ .connecting →
      clientReceive c (.welcome slot) = { c with local_slot := slot }) ∧
    (∀ c : ClientState, c.state ≠ .playing →
      clientReceive c .gameStart =
        { c with state := .playing, need_to_send_input := true }) ∧
    (∀ c : ClientState, c.state = .playing → clientReceive c .gameStart = c) ∧
    (∀ (c : ClientState) (msg : RelayMessage),
      connRank c.state ≤ connRank (clientReceive c msg).state) := by
  refine ⟨fun c slot h => ?_, fun c slot h => ?_, fun c h => ?_, fun c h => ?_,
    fun c msg => ?_⟩
  · simp [clientReceive, h]
  · simp [clientReceive, h]
  · simp [clientReceive, h]
  · simp [clientReceive, h]
  · cases msg with
    | welcome slot =>
      by_cases h : c.state = .connecting
      · simp [clientReceive, h, connRank]
      · simp [clientReceive, h]
    | gameStart =>
      by_cases h : c.state = .playing
      · simp [clientReceive, h]
      · rcases hs : c.state <;> simp [clientReceive, h, hs, connRank]
    | tickInputs tick inputs =>
      by_cases h : tick ≠ c.sim_tick <;> simp [clientReceive, h]

/-- Witness for C7 at concrete client states. -/
theorem C7_connection_state_machine_witness :
    clientReceive ⟨.connecting, 0, 0, false, false, [0, 0]⟩ (.welcome 1) =
      ⟨.waitingForOpponent, 1, 0, false, false, [0, 0]⟩ ∧
    clientReceive ⟨.playing, 0, 4, false, false, [0, 0]⟩ (.welcome 1) =
      ⟨.playing, 1, 4, false, false, [0, 0]⟩ ∧
    clientReceive ⟨.waitingForOpponent, 1, 0, false, false, [0, 0]⟩ .gameStart =
      ⟨.playing, 1, 0, false, true, [0, 0]⟩ ∧
    clientReceive ⟨.playing, 1, 0, false, false, [0, 0]⟩ .gameStart =
      ⟨.playing, 1, 0, false, false, [0, 0]⟩ :=
  ⟨C7_connection_state_machine.1 _ 1 rfl,
   C7_connection_state_machine.2.1 _ 1 (by simp),
   C7_connection_state_machine.2.2.1 _ (by simp),
   C7_connection_state_machine.2.2.2.1 _ rfl⟩

theorem applyInputsFrom_lt (inputs : List (List Byte)) :
    ∀ (i : Nat) (mv : List Nat) (j : Nat), j < i →
      (applyInputsFrom i mv inputs)[j]? = mv[j]? := by
  induction inputs with
  | nil => intro i mv j _; rfl
  | cons p rest ih =>
    intro i mv j hj
    cases hdec : decodeF32Bits p with
    | none =>
      rw [applyInputsFrom, hdec]
      exact ih (i + 1) mv j (by omega)
    | some m =>
      rw [applyInputsFrom, hdec]
      rw [ih (i + 1) _ j (by omega)]
      exact List.getElem?_set_ne (by omega)

theorem applyInputsFrom_hit (inputs : List (List Byte)) :
    ∀ (i : Nat) (mv : List Nat) (j : Nat) (p : List Byte) (m : Nat),
      inputs[j]? = some p → decodeF32Bits p = some m → i + j < mv.length →
      (applyInputsFrom i mv inputs)[i + j]? = some m := by
  induction inputs with
  | nil => intro i mv j p m hp _ _; simp at hp
  | cons q rest ih =>
    intro i mv j p m hp hdec hlen
    cases j with
    | zero =>
      obtain rfl : q = p := by simpa using hp
      simp only [applyInputsFrom, hdec, Nat.add_zero]
      rw [applyInputsFrom_lt rest (i + 1) (mv.set i m) i (by omega)]
      simp [List.getElem?_set_self, (show i < mv.length by omega)]
    | succ j =>
      have hp2 : rest[j]? = some p := by simpa using hp
      cases hdec2 : decodeF32Bits q with
      | none =>
        rw [applyInputsFrom, hdec2]
        have := ih (i + 1) mv j p m hp2 hdec (by omega)
        simpa [show i + 1 + j = i + (j + 1) by omega] using this
      | some m2 =>
        rw [applyInputsFrom, hdec2]
        have := ih (i + 1) (mv.set i m2) j p m hp2 hdec (by simpa using by omega)
        simpa [show i + 1 + j = i + (j + 1) by omega] using this

theorem applyInputsFrom_miss (inputs : List (List Byte)) :
    ∀ (i : Nat) (mv : List Nat) (j : Nat),
      (∀ p, inputs[j]? = some p → decodeF32Bits p = none) →
      (applyInputsFrom i mv inputs)[i + j]? = mv[i + j]? := by
  induction inputs with
  | nil => intro i mv j _; rfl
  | cons q rest ih =>
    intro i mv j hmiss
    cases j with
    | zero =>
      have hq : decodeF32Bits q = none := hmiss q (by simp)
      rw [applyInputsFrom, hq]
      simpa using applyInputsFrom_lt rest (i + 1) mv i (by omega)
    | succ j =>
      have hmiss2 : ∀ p, rest[j]? = some p → decodeF32Bits p = none := by
        intro p hp
        exact hmiss p (by simpa using hp)
      cases hdec2 : decodeF32Bits q with
      | none =>
        rw [applyInputsFrom, hdec2]
        have := ih (i + 1) mv j hmiss2
        simpa [show i + 1 + j = i + (j + 1) by omega] using this
      | some m2 =>
        rw [applyInputsFrom, hdec2]
        have := ih (i + 1) (mv.set i m2) j hmiss2
        rw [show i + (j + 1) = i + 1 + j by omega, this]
        exact List.getElem?_set_ne (by omega)

/-- C5 counterexample: with a matching tick, a slot whose payload does not
decode as an `f32` (here the empty payload for slot 1) is NOT copied into the
per-player input array — `movement[1]` keeps whatever value it had before
(5 in one run, 6 in the other), even though `tick_ready` is set — refuting
the claim that each slot's payload is copied for every slot. -/
theorem C5_counterexample :
    (clientReceive ⟨.playing, 0, 0, false, false, [5, 5]⟩
      (.tickInputs 0 [[1, 0, 0, 0], []])).tick_ready = true ∧
    (clientReceive ⟨.playing, 0, 0, false, false, [5, 5]⟩
      (.tickInputs 0 [[1, 0, 0, 0], []])).movement = [1, 5] ∧
    (clientReceive ⟨.playing, 0, 0, false, false, [5, 6]⟩
      (.tickInputs 0 [[1, 0, 0, 0], []])).movement = [1, 6] := by
  exact ⟨rfl, rfl, rfl⟩

/-- C5 (amended): on `TickInputs{tick, inputs}`, a mismatched tick discards
the message with no state change at all; a matching tick sets `tick_ready`
and overwrites `movement[i]` with the decoded payload exactly for the slots
whose payload decodes as an `f32`, leaving the previous value for slots whose
payload is absent or undecodable. -/
theorem C5_tickInputs_handling :
    (∀ (c : ClientState) (tick : Nat) (inputs : List (List Byte)),
      tick ≠ c.sim_tick → clientReceive c (.tickInputs tick inputs) = c) ∧
    (∀ (c : ClientState) (inputs : List (List Byte)),
      clientReceive c (.tickInputs c.sim_tick inputs) =
        { c with movement := applyInputs c.movement inputs, tick_ready := true }) ∧
    (∀ (mv : List Nat) (inputs : List (List Byte)) (j : Nat) (p : List Byte) (m : Nat),
      inputs[j]? = some p → decodeF32Bits p = some m → j < mv.length →
      (applyInputs mv inputs)[j]? = some m) ∧
    (∀ (mv : List Nat) (inputs : List (List Byte)) (j : Nat),
      (∀ p, inputs[j]? = some p → decodeF32Bits p = none) →
      (applyInputs mv inputs)[j]? = mv[j]?) := by
  refine ⟨fun c tick inputs h => ?_, fun c inputs => ?_, fun mv inputs j p m hp hdec hlen => ?_,
    fun mv inputs j hmiss => ?_⟩
  · simp [clientReceive, h]
  · simp [clientReceive]
  · simpa using applyInputsFrom_hit inputs 0 mv j p m hp hdec (by omega)
  · simpa using applyInputsFrom_miss inputs 0 mv j hmiss

/-- Witness for C5's amended theorem at concrete inputs. -/
theorem C5_tickInputs_handling_witness :
    clientReceive ⟨.playing, 0, 0, false, false, [5, 5]⟩ (.tickInputs 7 [[1]]) =
      ⟨.playing, 0, 0, false, false, [5, 5]⟩ ∧
    (applyInputs [5, 5] [[1, 0, 0, 0], []])[0]? = some 1 ∧
    (applyInputs [5, 5] [[1, 0, 0, 0], []])[1]? = [5, 5][1]? :=
  ⟨C5_tickInputs_handling.1 _ 7 [[1]] (by norm_num),
   C5_tickInputs_handling.2.2.1 [5, 5] [[1, 0, 0, 0], []] 0 [1, 0, 0, 0] 1 rfl rfl
     (by norm_num),
   C5_tickInputs_handling.2.2.2 [5, 5] [[1, 0, 0, 0], []] 1 (by
     intro p hp
     simp at hp
     subst hp
     rfl)⟩

/-- C3: the client tick gate: a simulation step runs only when the state is
`Playing` and `tick_ready` holds (otherwise one `FixedUpdate` run changes
nothing), and after a step runs, `sim_tick` has incremented by exactly one,
`tick_ready` is false and `need_to_send_input` is true. -/
theorem C3_tick_gate {σ : Type} (step : σ → σ) (c : ClientState) (w : σ) :
    (¬(c.state = .playing ∧ c.tick_ready = true) → fixedUpdate step c w = (c, w)) ∧
    (c.state = .playing → c.tick_ready = true → c.sim_tick + 1 < 2 ^ 32 →
      (fixedUpdate step c w).2 = step w ∧
      (fixedUpdate step c w).1.sim_tick = c.sim_tick + 1 ∧
      (fixedUpdate step c w).1.tick_ready = false ∧
      (fixedUpdate step c w).1.need_to_send_input = true) := by
  constructor
  · intro h
    by_cases hst : c.state = .playing
    · by_cases htr : c.tick_ready = true
      · exact absurd ⟨hst, htr⟩ h
      · simp [fixedUpdate, simStepAllowed, hst, htr]
    · simp [fixedUpdate, simStepAllowed, hst]
  · intro hst htr hov
    have hallow : simStepAllowed c = true := by simp [simStepAllowed, hst, htr]
    rw [fixedUpdate, if_pos hallow]
    exact ⟨rfl, Nat.mod_eq_of_lt hov, rfl, rfl⟩

/-- Witness for C3 with the world `Nat` and step `Nat.succ`: a gated run at
tick 3 advances to tick 4 and steps the world once; a non-`Playing` state
leaves both untouched. -/
theorem C3_tick_gate_witness :
    (fixedUpdate Nat.succ ⟨.playing, 0, 3, true, false, [0, 0]⟩ 10).1.sim_tick = 4 ∧
    (fixedUpdate Nat.succ ⟨.playing, 0, 3, true, false, [0, 0]⟩ 10).2 = 11 ∧
    fixedUpdate Nat.succ ⟨.connecting, 0, 3, true, false, [0, 0]⟩ 10 =
      (⟨.connecting, 0, 3, true, false, [0, 0]⟩, 10) := by
  refine ⟨?_, ?_, ?_⟩
  · exact ((C3_tick_gate Nat.succ ⟨.playing, 0, 3, true, false, [0, 0]⟩ 10).2
      rfl rfl (by norm_num)).2.1.trans (by norm_num)
  · exact ((C3_tick_gate Nat.succ ⟨.playing, 0, 3, true, false, [0, 0]⟩ 10).2
      rfl rfl (by norm_num)).1
  · exact (C3_tick_gate Nat.succ ⟨.connecting, 0, 3, true, false, [0, 0]⟩ 10).1
      (by simp)
